import Mathlib

/-!
Verification of the time-series data-view pipeline of the
WeatherAndEnergyInsights dashboard (`src/streamlit_app/app.py`).

The Python source is shallowly embedded: pandas/numpy numerics are modelled
over `ℚ`, a float `NaN` is modelled as `Option.none`, a raised Python
exception is modelled with `Except`, and a pandas boolean-mask filter is
`List.filter` (which keeps the original row order, as pandas does).
-/

namespace WeatherApp

/-! ## `custom_date_parser` (app.py lines 8–9)

`datetime.strptime(x, "%Y-%m-%dT%H:%M")`: CPython compiles the format to a
regex (`%Y` = four digits, `%m`/`%d`/`%H`/`%M` = one or two digits with range
alternations) that must consume the whole string, and then builds a
`datetime`, which validates the day against the month length and requires
`year ≥ 1`.  A mismatch raises `ValueError`, modelled as `Except.error`
carrying the offending string. -/

structure DateTime where
  year : ℕ
  month : ℕ
  day : ℕ
  hour : ℕ
  minute : ℕ
deriving DecidableEq, Repr

def digitVal (c : Char) : ℕ := c.toNat - 48

/-- One or two digits, greedily (matches the `%m`/`%d`/`%H`/`%M` regexes up
to the range check that the caller performs afterwards). -/
def take2Digits : List Char → Option (ℕ × List Char)
  | c1 :: c2 :: rest =>
      if c1.isDigit then
        if c2.isDigit then some (10 * digitVal c1 + digitVal c2, rest)
        else some (digitVal c1, c2 :: rest)
      else none
  | [c1] => if c1.isDigit then some (digitVal c1, []) else none
  | [] => none

/-- Exactly four digits (`%Y`). -/
def take4Digits : List Char → Option (ℕ × List Char)
  | c1 :: c2 :: c3 :: c4 :: rest =>
      if c1.isDigit && c2.isDigit && c3.isDigit && c4.isDigit then
        some (1000 * digitVal c1 + 100 * digitVal c2 + 10 * digitVal c3 + digitVal c4, rest)
      else none
  | _ => none

def expectChar (c : Char) : List Char → Option (List Char)
  | d :: rest => if d = c then some rest else none
  | [] => none

def isLeapYear (y : ℕ) : Bool := (y % 4 == 0 && y % 100 != 0) || y % 400 == 0

def daysInMonth (y m : ℕ) : ℕ :=
  if m = 2 then (if isLeapYear y then 29 else 28)
  else if m = 4 ∨ m = 6 ∨ m = 9 ∨ m = 11 then 30 else 31

def parseDateTime (cs : List Char) : Option DateTime := do
  let (y, r1) ← take4Digits cs
  let r2 ← expectChar '-' r1
  let (mo, r3) ← take2Digits r2
  let r4 ← expectChar '-' r3
  let (d, r5) ← take2Digits r4
  let r6 ← expectChar 'T' r5
  let (h, r7) ← take2Digits r6
  let r8 ← expectChar ':' r7
  let (mi, r9) ← take2Digits r8
  if r9 = [] ∧ 1 ≤ y ∧ 1 ≤ mo ∧ mo ≤ 12 ∧ 1 ≤ d ∧ d ≤ daysInMonth y mo ∧
      h ≤ 23 ∧ mi ≤ 59 then
    some ⟨y, mo, d, h, mi⟩
  else none

/-- `custom_date_parser` raises `ValueError` (here: `Except.error`) on a
string that does not match `%Y-%m-%dT%H:%M`. -/
def custom_date_parse (s : String) : Except String DateTime :=
  match parseDateTime s.data with
  | some dt => Except.ok dt
  | none => Except.error s

/-! ## Index loading (app.py lines 11–28) -/

structure LoadedIndex where
  index : List (Option DateTime)
  parseWarning : Bool
deriving Repr

/-- Modelled from the spec: `pd.read_csv` (library code, not part of this
repository) applies `custom_date_parser` to each raw index string; a row
whose parse raises becomes an explicit invalid marker (`NaT`, here `none`)
in the index instead of being dropped or aborting the load, and
`df.index.isnull().any()` (app.py line 21) then turns on the non-fatal
warning while the table stays usable. -/
def load_index (rows : List String) : LoadedIndex :=
  let idx := rows.map (fun s => (custom_date_parse s).toOption)
  { index := idx, parseWarning := idx.any Option.isNone }

/-! ## Display-label downsampling (app.py lines 77–83)

```
idx_options_full = [str(x) for x in df.index]
if len(idx_options_full) > 100:
    idx_options = idx_options_full[::len(idx_options_full)//100 + 1]
    if idx_options_full[-1] not in idx_options:
        idx_options.append(idx_options_full[-1])
else:
    idx_options = idx_options_full
```
-/

/-- Python `l[::k]` for `k ≥ 1`: the elements at positions `0, k, 2k, …`. -/
def everyNth (k : ℕ) (l : List α) : List α :=
  ((List.range l.length).filter (fun i => i % k == 0)).filterMap (fun i => l.get? i)

def idx_options (full : List String) : List String :=
  if 100 < full.length then
    let strided := everyNth (full.length / 100 + 1) full
    match full.getLast? with
    | some lastLabel => if lastLabel ∈ strided then strided else strided ++ [lastLabel]
    | none => strided
  else full

/-- Modelled from the claim's words, for comparison with `idx_options`:
the display sequence said to consist of every `max(1, N // 100)`-th label,
with the final label force-included. -/
def claimedDisplayLabels (full : List String) : List String :=
  if 100 < full.length then
    let strided := everyNth (max 1 (full.length / 100)) full
    match full.getLast? with
    | some lastLabel => if lastLabel ∈ strided then strided else strided ++ [lastLabel]
    | none => strided
  else full

/-! ## Label-pair range resolution (app.py lines 88–93)

```
s_idx, e_idx = idx_options_full.index(sel[0]), idx_options_full.index(sel[1])
if s_idx > e_idx:
    s_idx, e_idx = e_idx, s_idx
df_filtered = df.iloc[s_idx:e_idx + 1]
```
-/

/-- Python `list.index`: position of the first exact match, `ValueError`
(here `Except.error` carrying the needle) when absent. -/
def pyIndex (l : List String) (x : String) : Except String ℕ :=
  match l with
  | [] => Except.error x
  | y :: t => if y = x then Except.ok 0 else (pyIndex t x).map (· + 1)

def resolve_range (labels : List String) (a b : String) : Except String (ℕ × ℕ) := do
  let s ← pyIndex labels a
  let e ← pyIndex labels b
  pure (if e < s then (e, s) else (s, e))

/-- The row span `df.iloc[s:e+1]` selects: positions `s, s+1, …, e`. -/
def spanRows (p : ℕ × ℕ) : List ℕ := List.range' p.1 (p.2 + 1 - p.1)

/-! ## Columns, slicing and the "All" projection (app.py lines 100–107)

```
df_num = df_filtered.select_dtypes(include='number')
if df_num.shape[1] == 0:
    st.warning("No numeric columns.")
else:
    df_norm = (df_num - df_num.min()) / (df_num.max() - df_num.min())
```
A column carries its pandas dtype: numeric columns (modelled over `ℚ`) are
the ones `select_dtypes(include='number')` keeps. -/

inductive Column
  | numeric (vals : List ℚ)
  | text (vals : List String)
deriving DecidableEq, Repr

/-- Named columns, in order. -/
abbrev Table := List (String × Column)

/-- `l[s:e+1]` on a column's values. -/
def sliceList (s e : ℕ) (l : List α) : List α := (l.take (e + 1)).drop s

def sliceColumn (s e : ℕ) : Column → Column
  | Column.numeric vals => Column.numeric (sliceList s e vals)
  | Column.text vals => Column.text (sliceList s e vals)

/-- `df.iloc[s:e+1]`: every column restricted to the selected row range. -/
def sliceTable (s e : ℕ) (t : Table) : Table :=
  t.map (fun p => (p.1, sliceColumn s e p.2))

/-- `select_dtypes(include='number')`: the numeric columns with their values. -/
def numericPart (t : Table) : List (String × List ℚ) :=
  t.filterMap (fun p =>
    match p.2 with
    | Column.numeric vals => some (p.1, vals)
    | Column.text _ => none)

/-- `df_num.min()` on one column: pandas folds `min` over the values. -/
def colMin (l : List ℚ) : ℚ :=
  match l with
  | [] => 0
  | a :: r => r.foldl min a

def colMax (l : List ℚ) : ℚ :=
  match l with
  | [] => 0
  | a :: r => r.foldl max a

/-- `(col - col.min()) / (col.max() - col.min())` in float semantics: when
`max = min` every numerator is also `0`, and float `0.0 / 0.0` is `NaN`
(modelled `none`) in every row; otherwise the exact quotient. -/
def normalizeColumn (l : List ℚ) : List (Option ℚ) :=
  match l with
  | [] => []
  | _ :: _ =>
    if colMax l = colMin l then l.map (fun _ => none)
    else l.map (fun v => some ((v - colMin l) / (colMax l - colMin l)))

inductive ProjError
  | emptyProjection
deriving DecidableEq, Repr

/-- The "All" branch of `page_plots`: restrict to numeric columns; with zero
numeric columns signal the typed "nothing to show" outcome (the
`st.warning("No numeric columns.")` path, which renders no chart);
otherwise min–max–normalize each numeric column independently. -/
def projectAll (t : Table) : Except ProjError (List (String × List (Option ℚ))) :=
  let nums := numericPart t
  if nums.isEmpty then Except.error ProjError.emptyProjection
  else Except.ok (nums.map (fun p => (p.1, normalizeColumn p.2)))

/-- A column that is constant over a range of values. -/
def ConstantList (l : List ℚ) : Prop := ∀ a ∈ l, ∀ b ∈ l, a = b

/-! ## Mongo dashboard records (app.py lines 137–201)

One document of `elhub_production_data`, after `pd.to_datetime` on
`startTime`. -/

structure Record where
  startTime : DateTime
  priceArea : String
  productionGroup : String
  quantityKwh : ℚ
deriving DecidableEq, Repr

/-! ### Pie-chart aggregation (app.py lines 171–174)

```
df_pa = df[df["priceArea"] == pa]
agg = df_pa.groupby("productionGroup")["quantityKwh"].sum().sort_values(ascending=False)
```
-/

/-- `df[df["priceArea"] == pa]`: a boolean mask keeps the original order. -/
def areaFilter (pa : String) (l : List Record) : List Record :=
  l.filter (fun r => decide (r.priceArea = pa))

/-- Total quantity of one production group over a record list. -/
def totalFor (g : String) (l : List Record) : ℚ :=
  ((l.filter (fun r => decide (r.productionGroup = g))).map Record.quantityKwh).sum

/-- Python's string comparison, as used when pandas sorts group names:
lexicographic on the code-point sequences. -/
def charListLe : List Char → List Char → Bool
  | [], _ => true
  | _ :: _, [] => false
  | a :: as, b :: bs =>
    if a.toNat < b.toNat then true
    else if b.toNat < a.toNat then false
    else charListLe as bs

def pyStrLe (a b : String) : Bool := charListLe a.data b.data

def pyLe (a b : String) : Prop := pyStrLe a b = true

instance : DecidableRel pyLe :=
  fun a b => inferInstanceAs (Decidable (pyStrLe a b = true))

def pyLt (a b : String) : Prop := pyStrLe a b = true ∧ pyStrLe b a = false

/-- `groupby("productionGroup")["quantityKwh"].sum()`: pandas `groupby`
defaults to `sort=True`, so the result is keyed by the distinct group names
in ascending order, each mapped to its summed quantity. -/
def groupbySum (l : List Record) : List (String × ℚ) :=
  (List.insertionSort pyLe (l.map Record.productionGroup).dedup).map
    (fun g => (g, totalFor g l))

/-- One step of the stable descending-by-value sort behind
`sort_values(ascending=False)`: insert before the first entry whose value
does not exceed the inserted one, so entries with equal values keep their
relative order. -/
def ordInsertDesc (x : String × ℚ) : List (String × ℚ) → List (String × ℚ)
  | [] => [x]
  | y :: l => if y.2 ≤ x.2 then x :: y :: l else y :: ordInsertDesc x l

/-- `sort_values(ascending=False)` as a stable sort on (group, total) pairs. -/
def sortValuesDesc : List (String × ℚ) → List (String × ℚ)
  | [] => []
  | x :: l => ordInsertDesc x (sortValuesDesc l)

/-- The pie chart's single-level aggregation `agg`. -/
def single_agg (l : List Record) : List (String × ℚ) :=
  sortValuesDesc (groupbySum l)

/-! ### Line-chart month filter and pivot (app.py lines 189–199)

```
df_m = df[(df["priceArea"] == pa) & (df["startTime"].dt.month == mnum)]
if chosen:
    df_m = df_m[df_m["productionGroup"].isin(chosen)]
...
pivot = df_m.pivot_table(index="startTime", columns="productionGroup",
                         values="quantityKwh", aggfunc="sum").fillna(0)
```
-/

/-- The month-bucket mask `df["startTime"].dt.month == mnum` alone. -/
def monthBucket (m : ℕ) (l : List Record) : List Record :=
  l.filter (fun r => decide (r.startTime.month = m))

/-- The combined mask of app.py line 192. -/
def df_month (pa : String) (m : ℕ) (l : List Record) : List Record :=
  l.filter (fun r => decide (r.priceArea = pa ∧ r.startTime.month = m))

/-- `if chosen: df_m = df_m[df_m["productionGroup"].isin(chosen)]` — an
empty Python list is falsy, so an empty subset applies no filter at all. -/
def applyGroupFilter (chosen : List String) (l : List Record) : List Record :=
  if chosen = [] then l else l.filter (fun r => decide (r.productionGroup ∈ chosen))

/-- Sort key embedding the lexicographic order on valid timestamps
(`month ≤ 12 < 13`, `day ≤ 31 < 32`, `hour ≤ 23 < 24`, `minute ≤ 59 < 60`). -/
def dtKey (d : DateTime) : ℕ :=
  (((d.year * 13 + d.month) * 32 + d.day) * 24 + d.hour) * 60 + d.minute

/-- The pivot's row index: the distinct timestamps, ascending
(`pivot_table` sorts its index). -/
def pivotRows (l : List Record) : List DateTime :=
  List.insertionSort (fun a b => dtKey a ≤ dtKey b) (l.map Record.startTime).dedup

/-- The pivot's columns: the distinct production groups present, ascending. -/
def pivotCols (l : List Record) : List String :=
  List.insertionSort pyLe (l.map Record.productionGroup).dedup

/-- One pivot cell after `.fillna(0)`: `aggfunc="sum"` over the records of
the `(timestamp, group)` pair; a combination with no records is `NaN` in the
raw pivot and `0` after `fillna(0)`, which coincides with the empty sum. -/
def pivotCell (l : List Record) (ts : DateTime) (g : String) : ℚ :=
  ((l.filter (fun r => decide (r.startTime = ts ∧ r.productionGroup = g))).map
    Record.quantityKwh).sum

/-! ## Helper lemmas -/

lemma pyIndex_ok_of_mem {l : List String} {x : String} (h : x ∈ l) :
    ∃ i, pyIndex l x = Except.ok i := by
  induction l with
  | nil => simp at h
  | cons y t ih =>
    by_cases hyx : y = x
    · exact ⟨0, by simp [pyIndex, hyx]⟩
    · rcases List.mem_cons.mp h with h | h
      · exact absurd h.symm hyx
      · obtain ⟨i, hi⟩ := ih h
        exact ⟨i + 1, by simp [pyIndex, hyx, hi, Except.map]⟩

lemma foldl_min_spec : ∀ (r : List ℚ) (a : ℚ),
    (r.foldl min a ≤ a ∧ ∀ v ∈ r, r.foldl min a ≤ v) ∧
      (r.foldl min a = a ∨ r.foldl min a ∈ r)
  | [], a => by simp
  | b :: t, a => by
    have ih := foldl_min_spec t (min a b)
    rw [List.foldl_cons]
    refine ⟨⟨ih.1.1.trans (min_le_left a b), ?_⟩, ?_⟩
    · intro v hv
      rcases List.mem_cons.mp hv with h | h
      · exact h ▸ ih.1.1.trans (min_le_right a b)
      · exact ih.1.2 v h
    · rcases ih.2 with h | h
      · rcases min_choice a b with hc | hc
        · exact Or.inl (h.trans hc)
        · exact Or.inr (List.mem_cons.mpr (Or.inl (h.trans hc)))
      · exact Or.inr (List.mem_cons.mpr (Or.inr h))

lemma foldl_max_spec : ∀ (r : List ℚ) (a : ℚ),
    (a ≤ r.foldl max a ∧ ∀ v ∈ r, v ≤ r.foldl max a) ∧
      (r.foldl max a = a ∨ r.foldl max a ∈ r)
  | [], a => by simp
  | b :: t, a => by
    have ih := foldl_max_spec t (max a b)
    rw [List.foldl_cons]
    refine ⟨⟨(le_max_left a b).trans ih.1.1, ?_⟩, ?_⟩
    · intro v hv
      rcases List.mem_cons.mp hv with h | h
      · exact h ▸ (le_max_right a b).trans ih.1.1
      · exact ih.1.2 v h
    · rcases ih.2 with h | h
      · rcases max_choice a b with hc | hc
        · exact Or.inl (h.trans hc)
        · exact Or.inr (List.mem_cons.mpr (Or.inl (h.trans hc)))
      · exact Or.inr (List.mem_cons.mpr (Or.inr h))

lemma colMin_le {l : List ℚ} {v : ℚ} (hv : v ∈ l) : colMin l ≤ v := by
  cases l with
  | nil => simp at hv
  | cons a r =>
    rcases List.mem_cons.mp hv with h | h
    · exact h ▸ (foldl_min_spec r a).1.1
    · exact (foldl_min_spec r a).1.2 v h

lemma le_colMax {l : List ℚ} {v : ℚ} (hv : v ∈ l) : v ≤ colMax l := by
  cases l with
  | nil => simp at hv
  | cons a r =>
    rcases List.mem_cons.mp hv with h | h
    · exact h ▸ (foldl_max_spec r a).1.1
    · exact (foldl_max_spec r a).1.2 v h

lemma colMin_mem {l : List ℚ} (h : l ≠ []) : colMin l ∈ l := by
  cases l with
  | nil => exact absurd rfl h
  | cons a r =>
    rcases (foldl_min_spec r a).2 with h | h
    · exact List.mem_cons.mpr (Or.inl h)
    · exact List.mem_cons.mpr (Or.inr h)

lemma colMax_mem {l : List ℚ} (h : l ≠ []) : colMax l ∈ l := by
  cases l with
  | nil => exact absurd rfl h
  | cons a r =>
    rcases (foldl_max_spec r a).2 with h | h
    · exact List.mem_cons.mpr (Or.inl h)
    · exact List.mem_cons.mpr (Or.inr h)

lemma normalizeColumn_nonconstant {l : List ℚ} (h : ¬ ConstantList l) :
    ∀ x ∈ normalizeColumn l, ∃ q, x = some q ∧ 0 ≤ q ∧ q ≤ 1 := by
  have hab : ∃ a ∈ l, ∃ b ∈ l, a ≠ b := by
    by_contra hc
    push_neg at hc
    exact h hc
  obtain ⟨a, ha, b, hb, hne⟩ := hab
  have hMm : colMin l < colMax l := by
    rcases lt_or_le (colMin l) (colMax l) with h1 | h1
    · exact h1
    · have hea : a = colMin l :=
        le_antisymm ((le_colMax ha).trans h1) (colMin_le ha)
      have heb : b = colMin l :=
        le_antisymm ((le_colMax hb).trans h1) (colMin_le hb)
      exact absurd (hea.trans heb.symm) hne
  intro x hx
  cases l with
  | nil => simp [normalizeColumn] at hx
  | cons c r =>
    rw [normalizeColumn, if_neg (by exact fun he => absurd he.symm (ne_of_lt hMm))] at hx
    obtain ⟨v, hv, rfl⟩ := List.mem_map.mp hx
    refine ⟨_, rfl, ?_, ?_⟩
    · exact div_nonneg (sub_nonneg.mpr (colMin_le hv)) (le_of_lt (sub_pos.mpr hMm))
    · rw [div_le_one (sub_pos.mpr hMm)]
      exact sub_le_sub_right (le_colMax hv) _

lemma normalizeColumn_constant {l : List ℚ} (h : ConstantList l) :
    ∀ x ∈ normalizeColumn l, x = none := by
  intro x hx
  cases l with
  | nil => simp [normalizeColumn] at hx
  | cons c r =>
    have hMm : colMax (c :: r) = colMin (c :: r) :=
      h _ (colMax_mem (by simp)) _ (colMin_mem (by simp))
    rw [normalizeColumn, if_pos hMm] at hx
    obtain ⟨v, _, rfl⟩ := List.mem_map.mp hx
    rfl

lemma numericPart_sliceTable (s e : ℕ) (t : Table) :
    numericPart (sliceTable s e t) =
      (numericPart t).map (fun p => (p.1, sliceList s e p.2)) := by
  induction t with
  | nil => rfl
  | cons p t ih =>
    rcases p with ⟨nm, c⟩
    cases c <;>
      simpa [sliceTable, numericPart, sliceColumn, List.filterMap_cons] using ih

lemma mem_numericPart {t : Table} {nm : String} {vals : List ℚ} :
    (nm, vals) ∈ numericPart t ↔ (nm, Column.numeric vals) ∈ t := by
  induction t with
  | nil => simp [numericPart]
  | cons p t ih =>
    rcases p with ⟨nm', c⟩
    cases c with
    | numeric vals' =>
      simp only [numericPart, List.filterMap_cons] at *
      simp_all [List.mem_cons, Prod.ext_iff]
    | text vals' =>
      simp only [numericPart, List.filterMap_cons] at *
      simp_all [List.mem_cons, Prod.ext_iff]

lemma mem_pivotCols {l : List Record} {g : String} :
    g ∈ pivotCols l ↔ g ∈ l.map Record.productionGroup := by
  rw [pivotCols, List.mem_insertionSort, List.mem_dedup]

lemma charListLe_total : ∀ a b : List Char, charListLe a b = true ∨ charListLe b a = true
  | [], b => Or.inl rfl
  | a :: as, [] => Or.inr rfl
  | a :: as, b :: bs => by
    rw [charListLe, charListLe]
    rcases Nat.lt_trichotomy a.toNat b.toNat with h | h | h
    · rw [if_pos h]
      exact Or.inl rfl
    · rw [if_neg (by omega), if_neg (by omega), if_neg (by omega), if_neg (by omega)]
      exact charListLe_total as bs
    · rw [if_neg (by omega), if_pos h]
      exact Or.inr (by rw [if_pos h])

lemma charListLe_trans : ∀ a b c : List Char,
    charListLe a b = true → charListLe b c = true → charListLe a c = true
  | [], _, _, _, _ => rfl
  | a :: as, [], c, hab, _ => by
    rw [charListLe] at hab
    exact absurd hab (by simp)
  | a :: as, b :: bs, [], _, hbc => by
    rw [charListLe] at hbc
    exact absurd hbc (by simp)
  | a :: as, b :: bs, c :: cs, hab, hbc => by
    rw [charListLe] at hab hbc ⊢
    rcases Nat.lt_trichotomy a.toNat b.toNat with h1 | h1 | h1
    · rcases Nat.lt_trichotomy b.toNat c.toNat with h2 | h2 | h2
      · rw [if_pos (by omega)]
      · rw [if_pos (by omega)]
      · rw [if_neg (by omega), if_pos h2] at hbc
        exact absurd hbc (by simp)
    · rcases Nat.lt_trichotomy b.toNat c.toNat with h2 | h2 | h2
      · rw [if_pos (by omega)]
      · rw [if_neg (by omega), if_neg (by omega)]
        rw [if_neg (by omega), if_neg (by omega)] at hab
        rw [if_neg (by omega), if_neg (by omega)] at hbc
        exact charListLe_trans as bs cs hab hbc
      · rw [if_neg (by omega), if_pos h2] at hbc
        exact absurd hbc (by simp)
    · rw [if_neg (by omega), if_pos h1] at hab
      exact absurd hab (by simp)

lemma charListLe_antisymm : ∀ a b : List Char,
    charListLe a b = true → charListLe b a = true → a = b
  | [], [], _, _ => rfl
  | [], b :: bs, _, hba => by
    rw [charListLe] at hba
    exact absurd hba (by simp)
  | a :: as, [], hab, _ => by
    rw [charListLe] at hab
    exact absurd hab (by simp)
  | a :: as, b :: bs, hab, hba => by
    rw [charListLe] at hab hba
    rcases Nat.lt_trichotomy a.toNat b.toNat with h | h | h
    · rw [if_neg (by omega), if_pos h] at hba
      exact absurd hba (by simp)
    · rw [if_neg (by omega), if_neg (by omega)] at hab hba
      have hc : a = b := by
        have h2 := congrArg Char.ofNat h
        rwa [Char.ofNat_toNat, Char.ofNat_toNat] at h2
      rw [hc, charListLe_antisymm as bs hab hba]
    · rw [if_neg (by omega), if_pos h] at hab
      exact absurd hab (by simp)

lemma pyLe_antisymm {a b : String} (hab : pyLe a b) (hba : pyLe b a) : a = b := by
  have h : a.data = b.data := charListLe_antisymm a.data b.data hab hba
  cases a
  cases b
  exact congrArg String.mk h

instance : IsTotal String pyLe := ⟨fun a b => charListLe_total a.data b.data⟩

instance : IsTrans String pyLe :=
  ⟨fun a b c hab hbc => charListLe_trans a.data b.data c.data hab hbc⟩

lemma pyLt_of_pyLe_ne {a b : String} (hle : pyLe a b) (hne : a ≠ b) : pyLt a b := by
  refine ⟨hle, ?_⟩
  cases hba : pyStrLe b a
  · rfl
  · exact absurd (pyLe_antisymm hle hba) hne

/-- Descending order by total, and for equal totals ascending order by
group key — the order `single_agg` actually produces. -/
def AggOrder (a b : String × ℚ) : Prop :=
  b.2 < a.2 ∨ (a.2 = b.2 ∧ pyLt a.1 b.1)

lemma ordInsertDesc_perm (x : String × ℚ) :
    ∀ l : List (String × ℚ), (ordInsertDesc x l).Perm (x :: l)
  | [] => List.Perm.refl _
  | y :: l => by
    rw [ordInsertDesc]
    by_cases h : y.2 ≤ x.2
    · rw [if_pos h]
    · rw [if_neg h]
      exact ((ordInsertDesc_perm x l).cons y).trans (List.Perm.swap x y l)

lemma sortValuesDesc_perm : ∀ l : List (String × ℚ), (sortValuesDesc l).Perm l
  | [] => List.Perm.refl _
  | x :: l =>
    (ordInsertDesc_perm x (sortValuesDesc l)).trans ((sortValuesDesc_perm l).cons x)

lemma pairwise_ordInsertDesc {x : String × ℚ} :
    ∀ {l : List (String × ℚ)}, List.Pairwise AggOrder l →
      (∀ b ∈ l, pyLt x.1 b.1) → List.Pairwise AggOrder (ordInsertDesc x l)
  | [], _, _ => List.pairwise_singleton AggOrder x
  | y :: l, hl, hx => by
    rw [ordInsertDesc]
    rcases List.pairwise_cons.mp hl with ⟨hyl, hltail⟩
    by_cases h : y.2 ≤ x.2
    · rw [if_pos h]
      refine List.pairwise_cons.mpr ⟨?_, hl⟩
      intro b hb
      rcases List.mem_cons.mp hb with rfl | hb
      · rcases lt_or_eq_of_le h with h2 | h2
        · exact Or.inl h2
        · exact Or.inr ⟨h2.symm, hx b (List.mem_cons_self b l)⟩
      · rcases hyl b hb with h2 | h2
        · exact Or.inl (h2.trans_le h)
        · rcases lt_or_eq_of_le h with h3 | h3
          · exact Or.inl (h2.1 ▸ h3)
          · exact Or.inr ⟨h3.symm.trans h2.1, hx b (List.mem_cons_of_mem y hb)⟩
    · rw [if_neg h]
      refine List.pairwise_cons.mpr ⟨?_, ?_⟩
      · intro b hb
        have hb' : b ∈ x :: l := (ordInsertDesc_perm x l).mem_iff.mp hb
        rcases List.mem_cons.mp hb' with rfl | hb2
        · exact Or.inl (lt_of_not_le h)
        · exact hyl b hb2
      · exact pairwise_ordInsertDesc hltail
          (fun b hb => hx b (List.mem_cons_of_mem y hb))

lemma pairwise_sortValuesDesc :
    ∀ {l : List (String × ℚ)}, List.Pairwise (fun a b => pyLt a.1 b.1) l →
      List.Pairwise AggOrder (sortValuesDesc l)
  | [], _ => List.Pairwise.nil
  | x :: l, hl => by
    rcases List.pairwise_cons.mp hl with ⟨hxl, htail⟩
    exact pairwise_ordInsertDesc (pairwise_sortValuesDesc htail)
      (fun b hb => hxl b ((sortValuesDesc_perm l).mem_iff.mp hb))

lemma groupbySum_value {l : List Record} :
    ∀ p ∈ groupbySum l, p.2 = totalFor p.1 l := by
  intro p hp
  obtain ⟨g, _, rfl⟩ := List.mem_map.mp hp
  rfl

lemma groupbySum_keys (l : List Record) :
    (groupbySum l).map Prod.fst =
      List.insertionSort pyLe (l.map Record.productionGroup).dedup := by
  rw [groupbySum, List.map_map]
  exact List.map_id _

lemma groupbySum_pairwise_keys (l : List Record) :
    List.Pairwise (fun a b : String × ℚ => pyLt a.1 b.1) (groupbySum l) := by
  rw [groupbySum]
  rw [List.pairwise_map]
  have hsorted : List.Sorted pyLe
      (List.insertionSort pyLe (l.map Record.productionGroup).dedup) :=
    List.sorted_insertionSort _ _
  have hnodup : (List.insertionSort pyLe (l.map Record.productionGroup).dedup).Nodup :=
    (List.perm_insertionSort _ _).nodup_iff.mpr (List.nodup_dedup _)
  exact (hsorted.and hnodup).imp (fun hab => pyLt_of_pyLe_ne hab.1 hab.2)

lemma sum_map_add (f g : ℕ → ℕ) : ∀ M : List ℕ,
    (M.map (fun x => f x + g x)).sum = (M.map f).sum + (M.map g).sum
  | [] => rfl
  | m :: M => by
    rw [List.map_cons, List.map_cons, List.map_cons, List.sum_cons, List.sum_cons,
      List.sum_cons, sum_map_add f g M]
    omega

lemma sum_ite_not_mem (m : ℕ) : ∀ M : List ℕ, m ∉ M →
    (M.map (fun x => if m = x then (1 : ℕ) else 0)).sum = 0
  | [], _ => rfl
  | x :: M, hm => by
    rw [List.map_cons, List.sum_cons,
      if_neg (fun he : m = x => hm (List.mem_cons.mpr (Or.inl he))),
      sum_ite_not_mem m M (fun hx => hm (List.mem_cons_of_mem x hx))]

lemma sum_ite_mem (m : ℕ) : ∀ M : List ℕ, M.Nodup → m ∈ M →
    (M.map (fun x => if m = x then (1 : ℕ) else 0)).sum = 1
  | [], _, hm => absurd hm (List.not_mem_nil m)
  | x :: M, hnd, hm => by
    rw [List.map_cons, List.sum_cons]
    rcases List.mem_cons.mp hm with rfl | hm2
    · rw [if_pos rfl, sum_ite_not_mem m M (List.nodup_cons.mp hnd).1]
    · rw [if_neg (fun he : m = x => (List.nodup_cons.mp hnd).1 (he ▸ hm2)),
        sum_ite_mem m M (List.nodup_cons.mp hnd).2 hm2]

lemma monthBucket_cons_length (r : Record) (t : List Record) (m : ℕ) :
    (monthBucket m (r :: t)).length =
      (if r.startTime.month = m then 1 else 0) + (monthBucket m t).length := by
  by_cases h : r.startTime.month = m <;>
    simp [monthBucket, List.filter_cons, h]
  omega

lemma sum_bucket_lengths (M : List ℕ) (hM : M.Nodup) :
    ∀ l : List Record, (∀ r ∈ l, r.startTime.month ∈ M) →
      (M.map (fun m => (monthBucket m l).length)).sum = l.length := by
  intro l
  induction l with
  | nil =>
    intro _
    simp [monthBucket]
  | cons r t ih =>
    intro hcov
    have e1 : M.map (fun m => (monthBucket m (r :: t)).length) =
        M.map (fun m =>
          (if r.startTime.month = m then 1 else 0) + (monthBucket m t).length) :=
      List.map_congr_left (fun m _ => monthBucket_cons_length r t m)
    rw [e1, sum_map_add, sum_ite_mem _ M hM (hcov r (List.mem_cons_self r t)),
      ih (fun x hx => hcov x (List.mem_cons_of_mem r hx))]
    simp only [List.length_cons]
    omega

lemma sum_over_fibers (key : Record → DateTime) (q : Record → ℚ) :
    ∀ D : List DateTime, D.Nodup →
      ∀ l : List Record, (∀ r ∈ l, key r ∈ D) →
        (D.map (fun ts => ((l.filter (fun r => decide (key r = ts))).map q).sum)).sum
          = (l.map q).sum := by
  intro D
  induction D with
  | nil =>
    intro _ l hcov
    cases l with
    | nil => simp
    | cons r t => exact absurd (hcov r (List.mem_cons_self r t)) (List.not_mem_nil _)
  | cons ts D ih =>
    intro hnd l hcov
    have hts : ts ∉ D := (List.nodup_cons.mp hnd).1
    have hndD : D.Nodup := (List.nodup_cons.mp hnd).2
    rw [List.map_cons, List.sum_cons]
    have hsplit : (l.map q).sum =
        ((l.filter (fun r => decide (key r = ts))).map q).sum +
          ((l.filter (fun r => !decide (key r = ts))).map q).sum := by
      have hperm := List.filter_append_perm (fun r => decide (key r = ts)) l
      rw [← (hperm.map q).sum_eq, List.map_append, List.sum_append]
    have hrest : D.map (fun ts' => ((l.filter (fun r => decide (key r = ts'))).map q).sum) =
        D.map (fun ts' =>
          (((l.filter (fun r => !decide (key r = ts))).filter
            (fun r => decide (key r = ts'))).map q).sum) := by
      refine List.map_congr_left ?_
      intro ts' hts'
      have hne : ts' ≠ ts := fun he => hts (he ▸ hts')
      rw [List.filter_filter]
      congr 1
      refine congrArg _ ?_
      refine List.filter_congr ?_
      intro r _
      by_cases hk : key r = ts'
      · simp [hk, hne]
      · simp [hk]
    rw [hrest, ih hndD (l.filter (fun r => !decide (key r = ts))) ?_, ← hsplit]
    intro r hr
    rcases List.mem_filter.mp hr with ⟨hrl, hrne⟩
    rcases List.mem_cons.mp (hcov r hrl) with he | hD
    · rw [he] at hrne
      simp at hrne
    · exact hD

lemma pivotCell_eq (l : List Record) (ts : DateTime) (g : String) :
    pivotCell l ts g =
      (((l.filter (fun r => decide (r.productionGroup = g))).filter
        (fun r => decide (r.startTime = ts))).map Record.quantityKwh).sum := by
  rw [pivotCell, List.filter_filter]
  congr 1
  refine congrArg _ ?_
  refine List.filter_congr ?_
  intro r _
  by_cases h1 : r.startTime = ts <;> by_cases h2 : r.productionGroup = g <;>
    simp [h1, h2]

lemma pivotRows_nodup (l : List Record) : (pivotRows l).Nodup :=
  (List.perm_insertionSort _ _).nodup_iff.mpr (List.nodup_dedup _)

lemma mem_pivotRows {l : List Record} {ts : DateTime} :
    ts ∈ pivotRows l ↔ ts ∈ l.map Record.startTime := by
  rw [pivotRows, List.mem_insertionSort, List.mem_dedup]

/-! ## Claims -/

/-- C8: month-bucket selection keeps exactly the rows whose timestamp falls
in the requested calendar month, as a sublist (original order, none dropped
or reordered); across the twelve months the bucket lengths sum to the table
length, so every row lands in exactly one bucket; and the code's combined
mask of app.py line 192 factors as month-bucketing the area-filtered set. -/
theorem C8_month_bucket_partition (l : List Record)
    (hval : ∀ r ∈ l, 1 ≤ r.startTime.month ∧ r.startTime.month ≤ 12) :
    (∀ pa m, df_month pa m l = monthBucket m (areaFilter pa l)) ∧
    (∀ m, (monthBucket m l).Sublist l) ∧
    (∀ m r, r ∈ monthBucket m l ↔ r ∈ l ∧ r.startTime.month = m) ∧
    ((List.range' 1 12).map (fun m => (monthBucket m l).length)).sum = l.length := by
  refine ⟨?_, ?_, ?_, ?_⟩
  · intro pa m
    rw [df_month, monthBucket, areaFilter, List.filter_filter]
    refine List.filter_congr ?_
    intro r _
    by_cases h1 : r.priceArea = pa <;> by_cases h2 : r.startTime.month = m <;>
      simp [h1, h2]
  · intro m
    exact List.filter_sublist l
  · intro m r
    simp [monthBucket, List.mem_filter]
  · refine sum_bucket_lengths (List.range' 1 12) ?_ l ?_
    · exact List.nodup_range' _ _
    · intro r hr
      have := hval r hr
      rw [List.mem_range'_1]
      omega

theorem C8_month_bucket_partition_witness :
    ((List.range' 1 12).map (fun m =>
        (monthBucket m [⟨⟨2021, 1, 1, 0, 0⟩, "NO1", "hydro", 3⟩,
          ⟨⟨2021, 2, 1, 0, 0⟩, "NO1", "wind", 4⟩]).length)).sum =
      ([⟨⟨2021, 1, 1, 0, 0⟩, "NO1", "hydro", 3⟩,
        ⟨⟨2021, 2, 1, 0, 0⟩, "NO1", "wind", 4⟩] : List Record).length :=
  (C8_month_bucket_partition
    [⟨⟨2021, 1, 1, 0, 0⟩, "NO1", "hydro", 3⟩, ⟨⟨2021, 2, 1, 0, 0⟩, "NO1", "wind", 4⟩]
    (by decide)).2.2.2

/-- C6: label-pair range selection is insensitive to argument order: for two
display labels present in the index, `(b, a)` resolves to the same `(start,
end)` pair — hence the same contiguous row span — as `(a, b)`; the resolved
pair satisfies `start ≤ end` and the selector never errors. -/
theorem C6_range_selection_order_insensitive
    (labels : List String) (a b : String) (ha : a ∈ labels) (hb : b ∈ labels) :
    resolve_range labels a b = resolve_range labels b a ∧
    (resolve_range labels a b).map spanRows = (resolve_range labels b a).map spanRows ∧
    ∃ s e, resolve_range labels a b = Except.ok (s, e) ∧ s ≤ e := by
  obtain ⟨i, hi⟩ := pyIndex_ok_of_mem ha
  obtain ⟨j, hj⟩ := pyIndex_ok_of_mem hb
  have h1 : resolve_range labels a b = Except.ok (if j < i then (j, i) else (i, j)) := by
    simp only [resolve_range, hi, hj]
    rfl
  have h2 : resolve_range labels b a = Except.ok (if i < j then (i, j) else (j, i)) := by
    simp only [resolve_range, hi, hj]
    rfl
  have heq : resolve_range labels a b = resolve_range labels b a := by
    rw [h1, h2]
    rcases lt_trichotomy i j with h | h | h
    · rw [if_neg (by omega), if_pos h]
    · subst h
      simp
    · rw [if_pos h, if_neg (by omega)]
  refine ⟨heq, by rw [heq], ?_⟩
  by_cases h : j < i
  · exact ⟨j, i, by rw [h1, if_pos h], by omega⟩
  · exact ⟨i, j, by rw [h1, if_neg h], by omega⟩

theorem C6_range_selection_order_insensitive_witness :
    resolve_range ["a", "b", "c"] "c" "a" = resolve_range ["a", "b", "c"] "a" "c" ∧
    (resolve_range ["a", "b", "c"] "c" "a").map spanRows =
      (resolve_range ["a", "b", "c"] "a" "c").map spanRows ∧
    ∃ s e, resolve_range ["a", "b", "c"] "c" "a" = Except.ok (s, e) ∧ s ≤ e :=
  C6_range_selection_order_insensitive ["a", "b", "c"] "c" "a" (by decide) (by decide)

/-- C9: the "All" projection first restricts to the numeric columns; it
yields the typed empty-projection signal exactly when the range has zero
numeric columns, and a successful projection carries exactly the numeric
column names. -/
theorem C9_empty_projection_signal (t : Table) :
    (projectAll t = Except.error ProjError.emptyProjection ↔ numericPart t = []) ∧
    ∀ res, projectAll t = Except.ok res →
      res.map Prod.fst = (numericPart t).map Prod.fst := by
  constructor
  · unfold projectAll
    by_cases h : numericPart t = []
    · simp [h]
    · simp [h, List.isEmpty_iff]
  · intro res hres
    unfold projectAll at hres
    by_cases h : numericPart t = []
    · simp [h] at hres
    · rw [if_neg (by simpa [List.isEmpty_iff] using h)] at hres
      cases hres
      simp

theorem C9_empty_projection_signal_witness :
    projectAll [("a", Column.text ["x"]), ("b", Column.text ["y"])] =
      Except.error ProjError.emptyProjection :=
  (C9_empty_projection_signal [("a", Column.text ["x"]), ("b", Column.text ["y"])]).1.mpr
    (by decide)

/-- C10: an empty group-key subset applies no filter at all — the pivot over
the selected month and price area keeps every production group present in
that filtered set. -/
theorem C10_empty_group_subset (pa : String) (m : ℕ) (l : List Record) :
    applyGroupFilter [] (df_month pa m l) = df_month pa m l ∧
    ∀ g, g ∈ pivotCols (applyGroupFilter [] (df_month pa m l)) ↔
      g ∈ (df_month pa m l).map Record.productionGroup := by
  refine ⟨by simp [applyGroupFilter], ?_⟩
  intro g
  rw [show applyGroupFilter [] (df_month pa m l) = df_month pa m l from by
    simp [applyGroupFilter]]
  exact mem_pivotCols

/-- C1 (counterexample): on an index of 101 distinct labels the code strides
by `N // 100 + 1 = 2`, producing 51 display labels, while the claimed stride
`max(1, N // 100) = 1` would keep all 101 labels — the display sequence is
not "every `max(1, N // 100)`-th label". -/
theorem C1_claimed_stride_counterexample :
    idx_options ((List.range 101).map (fun i => toString i)) ≠
      claimedDisplayLabels ((List.range 101).map (fun i => toString i)) := by
  decide

/-- C1 (amended): for an index of `N > 100` labels the downsampled display
sequence consists of every `(N / 100 + 1)`-th label of the full index (not
every `max(1, N / 100)`-th), with the final true-index label appended
whenever it falls off the stride — so the final label is always included. -/
theorem C1_downsampled_labels_stride (full : List String) (h : 100 < full.length) :
    ∃ lastLabel, full.getLast? = some lastLabel ∧
      idx_options full =
        (if lastLabel ∈ everyNth (full.length / 100 + 1) full
         then everyNth (full.length / 100 + 1) full
         else everyNth (full.length / 100 + 1) full ++ [lastLabel]) ∧
      lastLabel ∈ idx_options full := by
  have hne : full ≠ [] := by
    intro he
    rw [he] at h
    simp at h
  obtain ⟨lastLabel, hl⟩ : ∃ x, full.getLast? = some x :=
    ⟨full.getLast hne, List.getLast?_eq_getLast_of_ne_nil hne⟩
  have hdef : idx_options full =
      (if lastLabel ∈ everyNth (full.length / 100 + 1) full
       then everyNth (full.length / 100 + 1) full
       else everyNth (full.length / 100 + 1) full ++ [lastLabel]) := by
    rw [idx_options, if_pos h, hl]
  refine ⟨lastLabel, hl, hdef, ?_⟩
  rw [hdef]
  by_cases hm : lastLabel ∈ everyNth (full.length / 100 + 1) full
  · rwa [if_pos hm]
  · rw [if_neg hm]
    exact List.mem_append_right _ (List.mem_singleton.mpr rfl)

theorem C1_downsampled_labels_stride_witness :
    ∃ lastLabel,
      ((List.range 101).map (fun i => toString i)).getLast? = some lastLabel ∧
      idx_options ((List.range 101).map (fun i => toString i)) =
        (if lastLabel ∈
            everyNth (((List.range 101).map (fun i => toString i)).length / 100 + 1)
              ((List.range 101).map (fun i => toString i))
         then everyNth (((List.range 101).map (fun i => toString i)).length / 100 + 1)
              ((List.range 101).map (fun i => toString i))
         else everyNth (((List.range 101).map (fun i => toString i)).length / 100 + 1)
              ((List.range 101).map (fun i => toString i)) ++ [lastLabel]) ∧
      lastLabel ∈ idx_options ((List.range 101).map (fun i => toString i)) :=
  C1_downsampled_labels_stride ((List.range 101).map (fun i => toString i)) (by decide)

/-- C2: in the "All" projection over a selected row range, every result
column comes from a numeric column of the table, normalized as
`(value - column_min) / (column_max - column_min)` with min and max taken
over the sliced (selected-range) values only; every value of a column that
is not constant over the range lies in `[0, 1]`, and a column constant over
the range yields the `NaN` marker in every row — never `0`. -/
theorem C2_all_columns_normalization (t : Table) (s e : ℕ)
    (res : List (String × List (Option ℚ)))
    (hres : projectAll (sliceTable s e t) = Except.ok res) :
    ∀ nm vals, (nm, vals) ∈ res →
      ∃ l, (nm, Column.numeric l) ∈ t ∧
        vals = normalizeColumn (sliceList s e l) ∧
        (¬ ConstantList (sliceList s e l) →
          ∀ x ∈ vals, ∃ q, x = some q ∧ 0 ≤ q ∧ q ≤ 1) ∧
        (ConstantList (sliceList s e l) → ∀ x ∈ vals, x = none) := by
  intro nm vals hmem
  unfold projectAll at hres
  by_cases hnil : (numericPart (sliceTable s e t)).isEmpty
  · rw [if_pos hnil] at hres
    cases hres
  · rw [if_neg hnil] at hres
    cases hres
    obtain ⟨⟨nm', l'⟩, hp, heq⟩ := List.mem_map.mp hmem
    obtain ⟨h1, h2⟩ := Prod.ext_iff.mp heq
    dsimp at h1 h2
    subst h1
    rw [numericPart_sliceTable] at hp
    obtain ⟨⟨nm0, l0⟩, hp0, heq0⟩ := List.mem_map.mp hp
    obtain ⟨h3, h4⟩ := Prod.ext_iff.mp heq0
    dsimp at h3 h4
    subst h3
    refine ⟨l0, mem_numericPart.mp hp0, ?_, ?_, ?_⟩
    · rw [← h2, h4]
    · intro hc x hx
      exact normalizeColumn_nonconstant hc x (by rwa [← h2, ← h4] at hx)
    · intro hc x hx
      exact normalizeColumn_constant hc x (by rwa [← h2, ← h4] at hx)

theorem C2_all_columns_normalization_witness :
    projectAll (sliceTable 0 1
        [("a", Column.numeric [(5 : ℚ), 5]), ("b", Column.text ["x", "y"])]) =
      Except.ok [("a", ([none, none] : List (Option ℚ)))] ∧
    ∃ l, ("a", Column.numeric l) ∈
        ([("a", Column.numeric [(5 : ℚ), 5]), ("b", Column.text ["x", "y"])] : Table) ∧
      ([none, none] : List (Option ℚ)) = normalizeColumn (sliceList 0 1 l) ∧
      (¬ ConstantList (sliceList 0 1 l) →
        ∀ x ∈ ([none, none] : List (Option ℚ)), ∃ q, x = some q ∧ 0 ≤ q ∧ q ≤ 1) ∧
      (ConstantList (sliceList 0 1 l) →
        ∀ x ∈ ([none, none] : List (Option ℚ)), x = none) :=
  ⟨by rfl,
    C2_all_columns_normalization
      [("a", Column.numeric [(5 : ℚ), 5]), ("b", Column.text ["x", "y"])] 0 1
      [("a", [none, none])] (by rfl) "a" [none, none]
      (by decide)⟩

/-- C5 (counterexample): two groups with equal totals, encountered as
`wind` before `hydro`, come out of the aggregation as `[hydro, wind]`:
pandas `groupby(sort=True)` orders the keys alphabetically before the
stable value sort, so equal totals appear in alphabetical — not
encounter — order. -/
theorem C5_tie_order_counterexample :
    totalFor "wind"
      [⟨⟨2021, 1, 1, 0, 0⟩, "NO1", "wind", 5⟩, ⟨⟨2021, 1, 1, 0, 0⟩, "NO1", "hydro", 5⟩] = 5 ∧
    totalFor "hydro"
      [⟨⟨2021, 1, 1, 0, 0⟩, "NO1", "wind", 5⟩, ⟨⟨2021, 1, 1, 0, 0⟩, "NO1", "hydro", 5⟩] = 5 ∧
    ([⟨⟨2021, 1, 1, 0, 0⟩, "NO1", "wind", 5⟩, ⟨⟨2021, 1, 1, 0, 0⟩, "NO1", "hydro", 5⟩] :
        List Record).map Record.productionGroup = ["wind", "hydro"] ∧
    (single_agg
        [⟨⟨2021, 1, 1, 0, 0⟩, "NO1", "wind", 5⟩,
          ⟨⟨2021, 1, 1, 0, 0⟩, "NO1", "hydro", 5⟩]).map Prod.fst = ["hydro", "wind"] := by
  have h3 : totalFor "wind"
      [⟨⟨2021, 1, 1, 0, 0⟩, "NO1", "wind", 5⟩, ⟨⟨2021, 1, 1, 0, 0⟩, "NO1", "hydro", 5⟩] = 5 := by
    simp [totalFor]
  have h4 : totalFor "hydro"
      [⟨⟨2021, 1, 1, 0, 0⟩, "NO1", "wind", 5⟩, ⟨⟨2021, 1, 1, 0, 0⟩, "NO1", "hydro", 5⟩] = 5 := by
    simp [totalFor]
  have h1 : (([⟨⟨2021, 1, 1, 0, 0⟩, "NO1", "wind", 5⟩,
      ⟨⟨2021, 1, 1, 0, 0⟩, "NO1", "hydro", 5⟩] :
        List Record).map Record.productionGroup).dedup = ["wind", "hydro"] := by decide
  have h2 : List.insertionSort pyLe ["wind", "hydro"] = ["hydro", "wind"] := by decide
  have hgb : groupbySum
      [⟨⟨2021, 1, 1, 0, 0⟩, "NO1", "wind", 5⟩, ⟨⟨2021, 1, 1, 0, 0⟩, "NO1", "hydro", 5⟩] =
      [("hydro", (5 : ℚ)), ("wind", 5)] := by
    rw [groupbySum, h1, h2]
    simp [h3, h4]
  have hs : single_agg
      [⟨⟨2021, 1, 1, 0, 0⟩, "NO1", "wind", 5⟩, ⟨⟨2021, 1, 1, 0, 0⟩, "NO1", "hydro", 5⟩] =
      [("hydro", (5 : ℚ)), ("wind", 5)] := by
    rw [single_agg, hgb]
    decide
  exact ⟨h3, h4, by decide, by rw [hs]; rfl⟩

/-- C5 (amended): the single-level aggregation maps each group key present
in the filtered set to the sum of its quantities (ignoring time) and is
sorted in descending order of total; for equal totals the order is
ascending alphabetical on the group key (the order pandas `groupby`
produces before the stable value sort) — not the original encounter
order. -/
theorem C5_single_level_aggregation (l : List Record) :
    (∀ p ∈ single_agg l, p.2 = totalFor p.1 l) ∧
    ((single_agg l).map Prod.fst).Perm (l.map Record.productionGroup).dedup ∧
    List.Pairwise AggOrder (single_agg l) := by
  refine ⟨?_, ?_, ?_⟩
  · intro p hp
    exact groupbySum_value p ((sortValuesDesc_perm _).mem_iff.mp hp)
  · have h1 : ((single_agg l).map Prod.fst).Perm ((groupbySum l).map Prod.fst) :=
      (sortValuesDesc_perm _).map _
    refine h1.trans ?_
    rw [groupbySum_keys]
    exact List.perm_insertionSort _ _
  · exact pairwise_sortValuesDesc (groupbySum_pairwise_keys l)

theorem C5_single_level_aggregation_witness :
    (("hydro", totalFor "hydro" [⟨⟨2021, 1, 1, 0, 0⟩, "NO1", "hydro", 7⟩]).2 =
      totalFor ("hydro", totalFor "hydro" [⟨⟨2021, 1, 1, 0, 0⟩, "NO1", "hydro", 7⟩]).1
        [⟨⟨2021, 1, 1, 0, 0⟩, "NO1", "hydro", 7⟩]) ∧
    List.Pairwise AggOrder (single_agg [⟨⟨2021, 1, 1, 0, 0⟩, "NO1", "hydro", 7⟩]) :=
  ⟨(C5_single_level_aggregation [⟨⟨2021, 1, 1, 0, 0⟩, "NO1", "hydro", 7⟩]).1
      ("hydro", totalFor "hydro" [⟨⟨2021, 1, 1, 0, 0⟩, "NO1", "hydro", 7⟩])
      (by exact List.mem_singleton.mpr rfl),
    (C5_single_level_aggregation [⟨⟨2021, 1, 1, 0, 0⟩, "NO1", "hydro", 7⟩]).2.2⟩

/-- C7: the two aggregation modes agree — for every group present in the
filtered record set, summing that group's pivot cells across all pivot rows
gives exactly the entry the single-level aggregation holds for that
group. -/
theorem C7_pivot_matches_single_level (l : List Record) (g : String)
    (hg : g ∈ l.map Record.productionGroup) :
    (g, ((pivotRows l).map (fun ts => pivotCell l ts g)).sum) ∈ single_agg l := by
  have hcell : (pivotRows l).map (fun ts => pivotCell l ts g) =
      (pivotRows l).map (fun ts =>
        (((l.filter (fun r => decide (r.productionGroup = g))).filter
          (fun r => decide (r.startTime = ts))).map Record.quantityKwh).sum) :=
    List.map_congr_left (fun ts _ => pivotCell_eq l ts g)
  have hsum : ((pivotRows l).map (fun ts => pivotCell l ts g)).sum = totalFor g l := by
    rw [hcell]
    exact sum_over_fibers Record.startTime Record.quantityKwh (pivotRows l)
      (pivotRows_nodup l) _
      (fun r hr => mem_pivotRows.mpr
        (List.mem_map.mpr ⟨r, (List.mem_filter.mp hr).1, rfl⟩))
  rw [hsum, single_agg]
  refine (sortValuesDesc_perm _).mem_iff.mpr ?_
  rw [groupbySum]
  exact List.mem_map.mpr
    ⟨g, by rw [List.mem_insertionSort, List.mem_dedup]; exact hg, rfl⟩

theorem C7_pivot_matches_single_level_witness :
    ("solar",
      ((pivotRows [⟨⟨2021, 3, 1, 0, 0⟩, "NO5", "solar", 9⟩]).map
        (fun ts => pivotCell [⟨⟨2021, 3, 1, 0, 0⟩, "NO5", "solar", 9⟩] ts "solar")).sum) ∈
      single_agg [⟨⟨2021, 3, 1, 0, 0⟩, "NO5", "solar", 9⟩] :=
  C7_pivot_matches_single_level [⟨⟨2021, 3, 1, 0, 0⟩, "NO5", "solar", 9⟩] "solar"
    (by decide)

/-- C4: for records filtered to a month bucket (and optional group subset),
the pivot has one row per distinct timestamp and one column per distinct
group present after filtering; each cell is the sum of `quantityKwh` over
the records of that `(timestamp, group)` pair; and a combination with no
records is filled with `0` (the value `fillna(0)` puts where the raw pivot
had `NaN`), never left missing. -/
theorem C4_pivot_aggregation (pa : String) (mnum : ℕ) (chosen : List String)
    (l : List Record) (dfm : List Record)
    (hdfm : dfm = applyGroupFilter chosen (df_month pa mnum l)) :
    ((pivotRows dfm).Nodup ∧
      ∀ ts, ts ∈ pivotRows dfm ↔ ts ∈ dfm.map Record.startTime) ∧
    ((pivotCols dfm).Nodup ∧
      ∀ g, g ∈ pivotCols dfm ↔ g ∈ dfm.map Record.productionGroup) ∧
    (∀ ts g, pivotCell dfm ts g =
      ((dfm.filter (fun r => decide (r.startTime = ts ∧ r.productionGroup = g))).map
        Record.quantityKwh).sum) ∧
    (∀ ts g, (∀ r ∈ dfm, ¬(r.startTime = ts ∧ r.productionGroup = g)) →
      pivotCell dfm ts g = 0) := by
  subst hdfm
  refine ⟨⟨pivotRows_nodup _, fun ts => mem_pivotRows⟩,
    ⟨(List.perm_insertionSort _ _).nodup_iff.mpr (List.nodup_dedup _),
      fun g => mem_pivotCols⟩, fun ts g => rfl, ?_⟩
  intro ts g hnone
  rw [pivotCell]
  have hfil : (applyGroupFilter chosen (df_month pa mnum l)).filter
      (fun r => decide (r.startTime = ts ∧ r.productionGroup = g)) = [] := by
    rw [List.filter_eq_nil_iff]
    intro r hr
    simpa using hnone r hr
  rw [hfil]
  rfl

theorem C4_pivot_aggregation_witness :
    pivotCell
      (applyGroupFilter []
        (df_month "NO1" 1
          [⟨⟨2021, 1, 1, 0, 0⟩, "NO1", "hydro", 10⟩,
            ⟨⟨2021, 1, 2, 0, 0⟩, "NO1", "wind", 5⟩]))
      ⟨2021, 1, 1, 0, 0⟩ "wind" = 0 :=
  (C4_pivot_aggregation "NO1" 1 []
    [⟨⟨2021, 1, 1, 0, 0⟩, "NO1", "hydro", 10⟩, ⟨⟨2021, 1, 2, 0, 0⟩, "NO1", "wind", 5⟩]
    (applyGroupFilter []
      (df_month "NO1" 1
        [⟨⟨2021, 1, 1, 0, 0⟩, "NO1", "hydro", 10⟩,
          ⟨⟨2021, 1, 2, 0, 0⟩, "NO1", "wind", 5⟩]))
    rfl).2.2.2 ⟨2021, 1, 1, 0, 0⟩ "wind" (by decide)

/-- C3: index parsing produces exactly one entry per raw row; a string the
`%Y-%m-%dT%H:%M` parse rejects becomes an explicit invalid marker in the
index (rather than being dropped or aborting), and the load surfaces any
invalid entry as a non-fatal warning flag while still returning the index. -/
theorem C3_index_parsing_totality (rows : List String) :
    (load_index rows).index.length = rows.length ∧
    (∀ i : ℕ, (load_index rows).index[i]? =
      (rows[i]?).map (fun s => (custom_date_parse s).toOption)) ∧
    (∀ s, parseDateTime s.data = none → (custom_date_parse s).toOption = none) ∧
    ((load_index rows).parseWarning = true ↔
      ∃ x ∈ (load_index rows).index, x = none) := by
  refine ⟨by simp [load_index], ?_, ?_, ?_⟩
  · intro i
    simp [load_index]
  · intro s hs
    simp [custom_date_parse, hs, Except.toOption]
  · simp only [load_index, List.any_eq_true]
    constructor
    · rintro ⟨x, hx, hnone⟩
      exact ⟨x, hx, Option.isNone_iff_eq_none.mp hnone⟩
    · rintro ⟨x, hx, rfl⟩
      exact ⟨none, hx, rfl⟩

theorem C3_index_parsing_totality_witness :
    (load_index ["2021-01-01T00:00", "nonsense"]).index.length =
      (["2021-01-01T00:00", "nonsense"] : List String).length ∧
    (custom_date_parse "nonsense").toOption = none ∧
    (load_index ["2021-01-01T00:00", "nonsense"]).parseWarning = true :=
  ⟨(C3_index_parsing_totality ["2021-01-01T00:00", "nonsense"]).1,
    (C3_index_parsing_totality ["2021-01-01T00:00", "nonsense"]).2.2.1 "nonsense" (by rfl),
    (C3_index_parsing_totality ["2021-01-01T00:00", "nonsense"]).2.2.2.mpr
      ⟨none, by decide, rfl⟩⟩

end WeatherApp
